import Mathlib

/-!
Verification of the scorechat scoring engine: a shallow embedding of the
server-side scoring, leaderboard and team-sidegame computations
(ScoringService and TeamSidegameService), with theorems settling the
specification claims about them.

Modelling conventions:
* JS numbers that hold whole stroke/hole/round counts are modelled as `Int`
  (or `Nat` where the source guarantees non-negativity); course ratings and
  handicap indices, which are decimal, are modelled as `ℚ`.
* JS string timestamps (ISO dates) are modelled as `Nat` epoch values; the
  source only ever compares them, and ISO order agrees with numeric order.
* JS objects used as dictionaries keyed by team id are modelled as total
  functions `String → Int` that default to 0: every key the source ever
  reads is first initialised to 0, and the only reads of uninitialised keys
  in the modelled paths go through a JS coalescing read returning 0.
* `uuidv4()` and `new Date(...)` are nondeterministic inputs; the embedded
  operations take the fresh id and the timestamp as explicit parameters.
-/

namespace ScoreChat

/-- Character list of a string lowercased; models JS `s.toLowerCase()` for the
ASCII names the system uses. -/
def lowerL (s : String) : List Char := s.data.map Char.toLower

/-- Substring containment on character lists: `containsSub n h` holds when `n`
occurs contiguously inside `h`. -/
def containsSub (needle hay : List Char) : Bool :=
  hay.tails.any (fun t => needle.isPrefixOf t)

/-- JS `a.includes(b)` (case-sensitive substring test). -/
def jsIncludes (a b : String) : Bool := containsSub b.data a.data

/-- The two-way case-insensitive match used to resolve a spoken player name
against the roster: `p.name.toLowerCase().includes(q.toLowerCase()) ||
q.toLowerCase().includes(p.name.toLowerCase())`. -/
def nameMatches (pname query : String) : Bool :=
  containsSub (lowerL query) (lowerL pname) || containsSub (lowerL pname) (lowerL query)

/-- Player record (server `Player`). `handicap` and `receivedStrokes` are
optional exactly as in the zod schema; players auto-created while scoring
carry neither. -/
structure Player where
  id : String
  name : String
  currentHole : Int
  handicap : Option ℚ := none
  receivedStrokes : Option Int := none
deriving Repr, DecidableEq

/-- Ledger entry (server `ScoreEntry`). -/
structure ScoreEntry where
  playerId : String
  hole : Int
  round : Int
  strokes : Int
  par : Int
  timestamp : Nat
deriving Repr, DecidableEq

/-- The `action` field of a scoring update. -/
inductive ScoreAction where
  | eagle | birdie | parAct | bogey | doubleBogey | score | delete
deriving Repr, DecidableEq

/-- Parsed scoring update (server `ScoringUpdate`); the `rawTranscription`
field carries no scoring information and is omitted. -/
structure ScoringUpdate where
  player : String
  hole : Option Int := none
  strokes : Option Int := none
  action : ScoreAction
deriving Repr, DecidableEq

/-- Tournament state (server `Tournament`); the course name/rating fields not
read by any modelled computation are omitted. -/
structure Tournament where
  id : String
  par : List Int
  players : List Player
  scores : List ScoreEntry
  totalRounds : Int
  currentRound : Int
deriving Repr, DecidableEq

/-- Fixed 18-hole par array (`ScoringService.standardPar`). -/
def standardPar : List Int := [4, 4, 5, 3, 5, 4, 4, 4, 3, 4, 5, 3, 4, 4, 5, 4, 3, 4]

/-- Fixed 18-hole stroke-index array (`ScoringService.standardIndex`). -/
def standardIndex : List Int := [8, 14, 4, 16, 2, 6, 12, 10, 18, 11, 3, 17, 13, 9, 1, 5, 15, 7]

/-- Total par of the standard course, `standardPar.reduce((sum, par) => sum + par, 0)`. -/
def totalPar : Int := standardPar.sum

/-- Course handicap from `parsePlayerInfo`:
`Math.round((handicap * slopeRating / 113) + (courseRating - totalPar))`.
JS `Math.round` rounds half up, which is Mathlib `round` on `ℚ`. -/
def courseHandicap (handicap slopeRating courseRating : ℚ) : Int :=
  round (handicap * slopeRating / 113 + (courseRating - (totalPar : ℚ)))

/-- Received strokes from `parsePlayerInfo`: `Math.max(0, courseHandicap)`. -/
def receivedStrokesOf (handicap slopeRating courseRating : ℚ) : Int :=
  max 0 (courseHandicap handicap slopeRating courseRating)

/-- Player construction at tournament setup (`parsePlayerInfo`); the regex
split of the raw "Name 4.9" string into name and handicap is done by the
caller, and the fresh uuid is passed in. -/
def parsePlayerInfo (pid name : String) (handicap courseRating slopeRating : ℚ) : Player :=
  { id := pid, name := name, currentHole := 1, handicap := some handicap,
    receivedStrokes := some (receivedStrokesOf handicap slopeRating courseRating) }

/-- Stroke index of a hole, `standardIndex[hole - 1]`; JS yields `undefined`
for an out-of-range hole, modelled as `none`. -/
def holeIndexAt (hole : Int) : Option Int :=
  if 1 ≤ hole ∧ hole ≤ 18 then standardIndex[(hole - 1).toNat]? else none

/-- Per-hole Stableford points (`ScoringService.calculateStablefordPoints`).
`receivedStrokes` is a `Nat` because every caller passes
`player.receivedStrokes || 0`, which is non-negative by construction
(`Math.max(0, ...)` in `parsePlayerInfo`); for non-negative operands JS
`Math.floor(r / 18)` and `r % 18` are `Nat` division and remainder.
A comparison of `undefined` (out-of-range hole) is false in JS, hence the
`none` branch adds no allowance stroke. -/
def calculateStablefordPoints (strokes par : Int) (receivedStrokes : Nat) (hole : Int) : Int :=
  let strokesReceived : Int :=
    ((receivedStrokes / 18 : Nat) : Int) +
      (match holeIndexAt hole with
       | some idx => if idx ≤ ((receivedStrokes % 18 : Nat) : Int) then 1 else 0
       | none => 0)
  let adjustedPar := par + strokesReceived
  let scoreDiff := strokes - adjustedPar
  if scoreDiff ≤ -2 then 4
  else if scoreDiff = -1 then 3
  else if scoreDiff = 0 then 2
  else if scoreDiff = 1 then 1
  else 0

/-- Reference Stableford definition, written from the spec text: with R the
received strokes and idx the hole's stroke index, the allowance is
`floor(R / 18) + (1 if idx ≤ R mod 18 else 0)`, the adjusted par is
`par + allowance`, and the points table on `strokes − adjustedPar` is
4 / 3 / 2 / 1 / 0 for ≤ −2 / −1 / 0 / +1 / ≥ 2. -/
def stablefordSpecPoints (strokes par : Int) (r : Nat) (idx : Int) : Int :=
  let allowance : Int := ((r / 18 : Nat) : Int) + (if idx ≤ ((r % 18 : Nat) : Int) then 1 else 0)
  let adjustedPar := par + allowance
  let diff := strokes - adjustedPar
  if diff ≤ -2 then 4
  else if diff = -1 then 3
  else if diff = 0 then 2
  else if diff = 1 then 1
  else 0

/-- Par of a hole, `tournament.par[hole - 1]`. JS yields `undefined` out of
range; that value only arises for holes outside 1..18, which the recording
path never rejects (see the C4 analysis), and is modelled as 0. -/
def parAt (pars : List Int) (hole : Int) : Int :=
  if 1 ≤ hole then pars.getD (hole - 1).toNat 0 else 0

/-- Strokes derived from a relative action when the update carries no stroke
count (the `switch (update.action)` block); the `default` branch of the
switch makes the whole update fail, modelled as `none`. -/
def deriveStrokes (action : ScoreAction) (par : Int) : Option Int :=
  match action with
  | .eagle => some (par - 2)
  | .birdie => some (par - 1)
  | .parAct => some par
  | .bogey => some (par + 1)
  | .doubleBogey => some (par + 2)
  | _ => none

/-- First roster player whose name fuzzily matches the update's player string
(`tournament.players.find(...)`). -/
def findPlayer (players : List Player) (query : String) : Option Player :=
  players.find? (fun p => nameMatches p.name query)

/-- Ledger upsert: `findIndex` on the `(playerId, hole, round)` key, then
either in-place replacement or push. -/
def upsertScore (scores : List ScoreEntry) (e : ScoreEntry) : List ScoreEntry :=
  match scores.findIdx? (fun s =>
      decide (s.playerId = e.playerId ∧ s.hole = e.hole ∧ s.round = e.round)) with
  | some i => scores.set i e
  | none => scores ++ [e]

/-- Descending-timestamp sort used by the delete fallbacks,
`sort((a, b) => new Date(b.timestamp).getTime() - new Date(a.timestamp).getTime())`;
JS engine sorts are stable, as is `mergeSort`. -/
def sortByTimestampDesc (scores : List ScoreEntry) : List ScoreEntry :=
  scores.mergeSort (fun a b => b.timestamp ≤ a.timestamp)

/-- Final stage of `deleteScore` once player and hole are resolved: `findIndex`
on `(playerId, hole)` — the round is not part of the match — then `splice`,
returning a strokes-0 marker entry. A resolved hole of 0 is falsy in JS and
fails the `!hole` guard. -/
def finishDelete (t : Tournament) (player? : Option Player) (hole? : Option Int)
    (scores : List ScoreEntry) (ts : Nat) : Option ScoreEntry × Tournament :=
  match player?, hole? with
  | some player, some hole =>
    if hole = 0 then (none, { t with scores := scores })
    else
      match scores.find? (fun s => decide (s.playerId = player.id ∧ s.hole = hole)) with
      | some deleted =>
        (some { playerId := player.id, hole := hole, round := deleted.round, strokes := 0,
                par := deleted.par, timestamp := ts },
         { t with scores := scores.eraseP (fun s => decide (s.playerId = player.id ∧ s.hole = hole)) })
      | none => (none, { t with scores := scores })
  | _, _ => (none, { t with scores := scores })

/-- Score deletion (`ScoringService.deleteScore`): resolves the target player
and hole through three fallbacks — explicit hole, most recent score of the
named player, most recent score overall. The last fallback calls
`tournament.scores.sort(...)`, which sorts the ledger in place; the returned
tournament carries the reordered ledger in that case. -/
def deleteScore (t : Tournament) (u : ScoringUpdate) (ts : Nat) : Option ScoreEntry × Tournament :=
  let player1 : Option Player := if u.player ≠ "" then findPlayer t.players u.player else none
  let holeGiven : Option Int :=
    match u.hole with
    | some h => if h ≠ 0 then some h else none
    | none => none
  match holeGiven with
  | some h => finishDelete t player1 (some h) t.scores ts
  | none =>
    match player1 with
    | some p =>
      let playerScores := sortByTimestampDesc (t.scores.filter (fun s => s.playerId = p.id))
      finishDelete t (some p) (playerScores.head?.map (·.hole)) t.scores ts
    | none =>
      let allScores := sortByTimestampDesc t.scores
      let p? := allScores.head?.bind (fun s0 => t.players.find? (fun p => p.id = s0.playerId))
      finishDelete { t with scores := allScores } p? (allScores.head?.map (·.hole)) allScores ts

/-- Score recording/deletion entry point (`ScoringService.processScoringUpdate`).
The fresh uuid used when auto-creating an unknown player and the timestamp are
explicit parameters. JS falsiness: an update hole or strokes value of 0 counts
as absent. Note that the auto-created player is pushed onto the roster before
strokes are resolved, so it persists even when the update then fails. -/
def processScoringUpdate (t : Tournament) (u : ScoringUpdate) (ts : Nat) (freshId : String) :
    Option ScoreEntry × Tournament :=
  if u.action = .delete then deleteScore t u ts
  else
    let found := findPlayer t.players u.player
    let player? : Option Player :=
      match found with
      | some p => some p
      | none =>
        if u.player ≠ "" then some { id := freshId, name := u.player, currentHole := 1 } else none
    let players1 : List Player :=
      match found with
      | some _ => t.players
      | none =>
        if u.player ≠ "" then t.players ++ [{ id := freshId, name := u.player, currentHole := 1 }]
        else t.players
    match player? with
    | none => (none, t)
    | some player =>
      let hole : Int :=
        match u.hole with
        | some h => if h ≠ 0 then h else player.currentHole
        | none => player.currentHole
      let par := parAt t.par hole
      let strokes? : Option Int :=
        match u.strokes with
        | some s => if s ≠ 0 then some s else deriveStrokes u.action par
        | none => deriveStrokes u.action par
      match strokes? with
      | none => (none, { t with players := players1 })
      | some strokes =>
        let entry : ScoreEntry :=
          { playerId := player.id, hole := hole, round := t.currentRound,
            strokes := strokes, par := par, timestamp := ts }
        let players2 := players1.map (fun q =>
          if q.id = player.id ∧ hole = player.currentHole ∧ hole < 18 then
            { q with currentHole := hole + 1 }
          else q)
        (some entry, { t with scores := upsertScore t.scores entry, players := players2 })

/-- Manual score endpoint (`POST /api/tournament/:id/manual-score`): rejects a
missing playerId, a falsy hole and an absent (undefined) strokes field, looks
the player up by exact id, then builds a `ScoringUpdate` (strokes `null`
meaning deletion) and hands it to `processScoringUpdate`. The body strokes
field is `Option (Option Int)`: `none` is undefined, `some none` is `null`. -/
def manualScore (t : Tournament) (playerId : String) (hole : Int)
    (strokes : Option (Option Int)) (ts : Nat) (freshId : String) :
    Option (Option ScoreEntry × Tournament) :=
  match strokes with
  | none => none
  | some s? =>
    if playerId = "" ∨ hole = 0 then none
    else
      match t.players.find? (fun p => p.id = playerId) with
      | none => none
      | some player =>
        some (processScoringUpdate t
          { player := player.name, hole := some hole, strokes := s?,
            action := match s? with | none => .delete | some _ => .score }
          ts freshId)

/-- Leaderboard row (server `LeaderboardEntry`); the per-hole display arrays
and the multi-round breakdown, which no ranking computation reads, are
omitted, keeping the aggregate fields. -/
structure LeaderboardEntry where
  playerId : String
  playerName : String
  totalStrokes : Int
  holesCompleted : Nat
  currentScore : Int
  position : Nat
  totalStablefordPoints : Int
deriving Repr, DecidableEq

/-- Total Stableford points of a round: the source fills an 18-slot array
indexed by `hole - 1` (later writes to the same hole overwrite earlier ones)
and sums it with `(points || 0)`. Modelled by folding the writes into a
slot function and summing slots 0..17. -/
def totalStablefordOf (scores : List ScoreEntry) (received : Nat) : Int :=
  let slots : Int → Option Int :=
    scores.foldl
      (fun acc s =>
        Function.update acc (s.hole - 1)
          (some (calculateStablefordPoints s.strokes s.par received s.hole)))
      (fun _ => none)
  ((List.range 18).map (fun i => (slots i).getD 0)).sum

/-- One player's leaderboard row for a display round (the body of the
`tournament.players.map` in `generateLeaderboard`). -/
def leaderboardEntryFor (t : Tournament) (displayRound : Int) (player : Player) : LeaderboardEntry :=
  let currentRoundScores :=
    t.scores.filter (fun s => decide (s.playerId = player.id ∧ s.round = displayRound))
  let totalStrokes := (currentRoundScores.map (·.strokes)).sum
  let parPlayed := (currentRoundScores.map (·.par)).sum
  { playerId := player.id, playerName := player.name,
    totalStrokes := totalStrokes,
    holesCompleted := currentRoundScores.length,
    currentScore := totalStrokes - parPlayed,
    position := 0,
    totalStablefordPoints :=
      totalStablefordOf currentRoundScores (player.receivedStrokes.getD 0).toNat }

/-- Leaderboard comparator: the JS comparator returns
`a.currentScore - b.currentScore` when the scores differ and
`b.holesCompleted - a.holesCompleted` otherwise; `a` sorts no later than `b`
exactly when that value is ≤ 0. -/
def lbCompare (a b : LeaderboardEntry) : Bool :=
  decide (a.currentScore < b.currentScore ∨
    (a.currentScore = b.currentScore ∧ b.holesCompleted ≤ a.holesCompleted))

/-- Position assignment, `leaderboard.forEach((entry, index) => entry.position = index + 1)`. -/
def assignPositions : Nat → List LeaderboardEntry → List LeaderboardEntry
  | _, [] => []
  | i, e :: es => { e with position := i + 1 } :: assignPositions (i + 1) es

/-- Individual leaderboard (`ScoringService.generateLeaderboard`): one row per
roster player for the display round (`selectedRound || currentRound`), sorted
by current score ascending with holes-completed-descending tiebreak, then
densely numbered. -/
def generateLeaderboard (t : Tournament) (selectedRound : Option Int) : List LeaderboardEntry :=
  let displayRound : Int :=
    match selectedRound with
    | some r => if r ≠ 0 then r else t.currentRound
    | none => t.currentRound
  let entries := t.players.map (leaderboardEntryFor t displayRound)
  assignPositions 0 (entries.mergeSort lbCompare)

/-- Team configuration record (server `Team`). -/
structure Team where
  id : String
  name : String
  color : String
  players : List String
deriving Repr, DecidableEq

/-- Sidegame mode. -/
inductive GameType where
  | allVsAll | sumMatch
deriving Repr, DecidableEq

/-- Team sidegame record (server `TeamSidegame`), without the cached matches
list (rebuilt by `processHoleMatch`, not read by the leaderboard). -/
structure TeamSidegame where
  id : String
  tournamentId : String
  round : Int
  gameType : GameType
  teams : List Team
  groupings : Option (List (List String)) := none
deriving Repr, DecidableEq

/-- Team leaderboard row (server `TeamLeaderboardEntry`). -/
structure TeamLeaderboardEntry where
  teamId : String
  teamName : String
  teamColor : String
  totalPoints : Int
  matchesPlayed : Nat
  position : Nat
deriving Repr, DecidableEq

/-- Team of a player name (`TeamSidegameService.getPlayerTeam`): first
configured team with a member whose lowercased name equals, is contained in,
or contains the lowercased query. -/
def getPlayerTeam (teams : List Team) (playerName : String) : Option Team :=
  teams.find? (fun team => team.players.any (fun player =>
    lowerL player == lowerL playerName ||
    containsSub (lowerL player) (lowerL playerName) ||
    containsSub (lowerL playerName) (lowerL player)))

/-- The hardcoded green-team alternation: a green-team member whose name
contains "Christer" counts only on even holes, one containing "Anders" only
on odd holes (JS `hole % 2` on the positive hole numbers); everyone else
always counts. The `else if` condition in the source is the negation of the
leading `if`, so its branch always adds. -/
def greenCounts (team : Team) (playerName : String) (hole : Int) : Bool :=
  if team.id = "green" ∧ (jsIncludes playerName "Christer" ∨ jsIncludes playerName "Anders") then
    decide ((jsIncludes playerName "Christer" ∧ hole % 2 = 0) ∨
      (jsIncludes playerName "Anders" ∧ hole % 2 = 1))
  else true

/-- Per-team strokes-vs-par totals of a hole from explicit per-player results
(`teamStrokesDifference` in `calculateSumMatchPoints`). The JS object is
initialised with a 0 entry per configured team and only those keys are ever
incremented, so it is modelled as a function defaulting to 0 whose values are
recovered below as `teams.map (fun tm => diff tm.id)` (the insertion order of
`Object.values`). -/
def accumulateTeamDiffs (teams : List Team) (hole : Int) (holeResults : List (String × Int)) :
    String → Int :=
  holeResults.foldl
    (fun acc pr =>
      match getPlayerTeam teams pr.1 with
      | some team =>
        if greenCounts team pr.1 hole then Function.update acc team.id (acc team.id + pr.2)
        else acc
      | none => acc)
    (fun _ => 0)

/-- Award stage of `calculateSumMatchPoints`: every team at the best (minimum)
total gets +1, every team at the worst (maximum) gets −1, nothing if best and
worst coincide. With no teams, JS compares `Infinity` with `-Infinity` and
then finds no winners or losers, so the all-zero result also matches. -/
def sumMatchAward (teams : List Team) (diff : String → Int) : String → Int :=
  let teamScores := teams.map (fun tm => diff tm.id)
  match teamScores.min?, teamScores.max? with
  | some bestScore, some worstScore =>
    if bestScore ≠ worstScore then
      let winners := (teams.filter (fun tm => decide (diff tm.id = bestScore))).map (·.id)
      let losers := (teams.filter (fun tm => decide (diff tm.id = worstScore))).map (·.id)
      let pts := winners.foldl (fun acc i => Function.update acc i 1) (fun _ => 0)
      losers.foldl (fun acc i => Function.update acc i (-1)) pts
    else fun _ => 0
  | _, _ => fun _ => 0

/-- Per-hole sum-match points (`TeamSidegameService.calculateSumMatchPoints`). -/
def calculateSumMatchPoints (teams : List Team) (holeResults : List (String × Int)) (hole : Int) :
    String → Int :=
  sumMatchAward teams (accumulateTeamDiffs teams hole holeResults)

/-- One pairwise comparison of the all-vs-all double loop: players of
different teams are compared on their hole results (`holeResults[p] || 0`),
the winner's team gains one point, a tie or an intra-team pair changes
nothing. -/
def pairStep (teams : List Team) (holeResults : List (String × Int))
    (acc : String → Int) (p1 p2 : String) : String → Int :=
  match getPlayerTeam teams p1, getPlayerTeam teams p2 with
  | some t1, some t2 =>
    if t1.id ≠ t2.id then
      let score1 := (holeResults.lookup p1).getD 0
      let score2 := (holeResults.lookup p2).getD 0
      if score1 > score2 then Function.update acc t1.id (acc t1.id + 1)
      else if score2 > score1 then Function.update acc t2.id (acc t2.id + 1)
      else acc
    else acc
  | _, _ => acc

/-- The nested `for i / for j > i` loops over a group's present players. -/
def processGroupPairs (teams : List Team) (holeResults : List (String × Int)) :
    (String → Int) → List String → (String → Int)
  | acc, [] => acc
  | acc, p :: rest =>
    processGroupPairs teams holeResults
      (rest.foldl (fun a q => pairStep teams holeResults a p q) acc) rest

/-- Per-hole all-vs-all points (`TeamSidegameService.calculateAllVsAllPoints`):
each grouping is restricted to the players present in `holeResults`
(`playerName in holeResults`) and all its unordered pairs are compared. -/
def calculateAllVsAllPoints (teams : List Team) (holeResults : List (String × Int))
    (groupings : List (List String)) : String → Int :=
  groupings.foldl
    (fun acc group =>
      processGroupPairs teams holeResults acc
        (group.filter (fun pn => (holeResults.lookup pn).isSome)))
    (fun _ => 0)

/-- Aggregated team match for a hole (server `TeamMatch`); id and sidegame id
omitted, the points map is kept as a function. -/
structure TeamMatch where
  hole : Int
  gameType : GameType
  participants : List String
  teamPoints : String → Int
  timestamp : Nat

/-- Hole-match recompute (`TeamSidegameService.processHoleMatch`) restricted to
its scoring content: dispatches on the game type and returns the per-hole
team points; the caller replaces any cached match for the same hole. -/
def processHoleMatch (teams : List Team) (sidegame : TeamSidegame) (hole : Int)
    (holeResults : List (String × Int)) (ts : Nat) : TeamMatch :=
  let teamPoints : String → Int :=
    match sidegame.gameType with
    | .sumMatch => calculateSumMatchPoints teams holeResults hole
    | .allVsAll => calculateAllVsAllPoints teams holeResults (sidegame.groupings.getD [])
  { hole := hole, gameType := sidegame.gameType,
    participants := holeResults.map (·.1), teamPoints := teamPoints, timestamp := ts }

/-- Distinct played holes of the current round in ledger order (the
`holesWithScores` JS `Set`, which preserves first-insertion order). -/
def distinctHoles (scores : List ScoreEntry) (round : Int) : List Int :=
  scores.foldl
    (fun acc s => if s.round = round then (if s.hole ∈ acc then acc else acc ++ [s.hole]) else acc)
    []

/-- Per-hole strokes-vs-par totals inside `generateTeamLeaderboard`, read from
the tournament ledger (current round only) and subject to the same green-team
alternation. -/
def leaderboardHoleDiffs (teams : List Team) (t : Tournament) (hole : Int) : String → Int :=
  (t.scores.filter (fun s => decide (s.hole = hole ∧ s.round = t.currentRound))).foldl
    (fun acc s =>
      match t.players.find? (fun p => p.id = s.playerId) with
      | some player =>
        match getPlayerTeam teams player.name with
        | some team =>
          if greenCounts team player.name hole then
            Function.update acc team.id (acc team.id + (s.strokes - s.par))
          else acc
        | none => acc
      | none => acc)
    (fun _ => 0)

/-- Per-hole accumulation step of `generateTeamLeaderboard`: unlike
`calculateSumMatchPoints`, it awards +1 only when there is a sole winner and
−1 only when there is a sole loser (`winners.length === 1`). -/
def leaderboardHoleStep (teams : List Team) (t : Tournament) (acc : String → Int) (hole : Int) :
    String → Int :=
  let diff := leaderboardHoleDiffs teams t hole
  let teamScores := teams.map (fun tm => diff tm.id)
  match teamScores.min?, teamScores.max? with
  | some bestScore, some worstScore =>
    if bestScore ≠ worstScore then
      let winners := (teams.filter (fun tm => decide (diff tm.id = bestScore))).map (·.id)
      let losers := (teams.filter (fun tm => decide (diff tm.id = worstScore))).map (·.id)
      let acc1 := match winners with
        | [w] => Function.update acc w (acc w + 1)
        | _ => acc
      match losers with
      | [l] => Function.update acc1 l (acc1 l - 1)
      | _ => acc1
    else acc
  | _, _ => acc

/-- Lexicographic order on character lists, used to model
`localeCompare(...) ≤ 0`. -/
def lexLe : List Char → List Char → Bool
  | [], _ => true
  | _ :: _, [] => false
  | a :: as, b :: bs => if a < b then true else if b < a then false else lexLe as bs

/-- Name comparison `a.localeCompare(b) ≤ 0`, modelled as lexicographic order
on the characters. -/
def nameLe (a b : String) : Bool := lexLe a.data b.data

/-- Team-leaderboard comparator: total points descending, then team name
ascending (`localeCompare`, modelled lexicographically). -/
def teamCompare (a b : TeamLeaderboardEntry) : Bool :=
  decide (b.totalPoints < a.totalPoints ∨
    (a.totalPoints = b.totalPoints ∧ nameLe a.teamName b.teamName))

/-- Position assignment for the team leaderboard. -/
def assignTeamPositions : Nat → List TeamLeaderboardEntry → List TeamLeaderboardEntry
  | _, [] => []
  | i, e :: es => { e with position := i + 1 } :: assignTeamPositions (i + 1) es

/-- Team leaderboard (`TeamSidegameService.generateTeamLeaderboard`): empty
unless the sidegame is sum-match and an active tournament snapshot loads;
otherwise recomputes every played hole of the current round with the
sole-winner/sole-loser award, builds one row per sidegame team
(`teamTotalPoints[team.id] || 0`), sorts and numbers them. -/
def generateTeamLeaderboard (teams : List Team) (sidegame : TeamSidegame)
    (activeTournament : Option Tournament) : List TeamLeaderboardEntry :=
  if sidegame.gameType ≠ GameType.sumMatch then []
  else
    match activeTournament with
    | none => []
    | some t =>
      let holes := distinctHoles t.scores t.currentRound
      let totals := holes.foldl (leaderboardHoleStep teams t) (fun _ => 0)
      let entries := sidegame.teams.map (fun team =>
        { teamId := team.id, teamName := team.name, teamColor := team.color,
          totalPoints := totals team.id, matchesPlayed := holes.length,
          position := 0 : TeamLeaderboardEntry })
      assignTeamPositions 0 (entries.mergeSort teamCompare)

/-- The upsert key of a ledger entry, `(playerId, hole, round)`. -/
def scoreKey (s : ScoreEntry) : String × Int × Int := (s.playerId, s.hole, s.round)

/-- The identity fields of a player: everything except the mutable
current-hole pointer. -/
def playerIdentity (p : Player) : String × String × Option ℚ × Option Int :=
  (p.id, p.name, p.handicap, p.receivedStrokes)

/-- All unordered pairs of a list, in the order of the nested
`for i / for j > i` loops. -/
def allPairs : List String → List (String × String)
  | [] => []
  | p :: rest => rest.map (fun q => (p, q)) ++ allPairs rest

/-- Contribution of one pair to team `i`'s all-vs-all points, written from
the spec: only pairs of players on different teams score, the team of the
player with strictly higher Stableford points gains one point, nothing is
subtracted from the loser, and ties award neither team. -/
def pairContrib (teams : List Team) (holeResults : List (String × Int)) (i : String)
    (pq : String × String) : Int :=
  match getPlayerTeam teams pq.1, getPlayerTeam teams pq.2 with
  | some t1, some t2 =>
    if t1.id ≠ t2.id then
      if (holeResults.lookup pq.1).getD 0 > (holeResults.lookup pq.2).getD 0 then
        (if t1.id = i then 1 else 0)
      else if (holeResults.lookup pq.2).getD 0 > (holeResults.lookup pq.1).getD 0 then
        (if t2.id = i then 1 else 0)
      else 0
    else 0
  | _, _ => 0

/-- Three concrete teams (none of them the special green team), used for
concrete checks. -/
def cTeams : List Team :=
  [{ id := "red", name := "Red", color := "r", players := ["alice"] },
   { id := "blue", name := "Blue", color := "b", players := ["bob"] },
   { id := "teal", name := "Teal", color := "c", players := ["carol"] }]

/-- Concrete three-player roster matching `cTeams`. -/
def cPlayers : List Player :=
  [{ id := "a", name := "alice", currentHole := 2 },
   { id := "b", name := "bob", currentHole := 2 },
   { id := "c", name := "carol", currentHole := 2 }]

/-- Concrete tournament: on hole 1 (par 4), alice and bob scored 3 (−1) and
carol scored 5 (+1), so the red and blue teams tie at the best total while
teal alone is worst. -/
def cT : Tournament :=
  { id := "t", par := standardPar, players := cPlayers,
    scores :=
      [{ playerId := "a", hole := 1, round := 1, strokes := 3, par := 4, timestamp := 1 },
       { playerId := "b", hole := 1, round := 1, strokes := 3, par := 4, timestamp := 2 },
       { playerId := "c", hole := 1, round := 1, strokes := 5, par := 4, timestamp := 3 }],
    totalRounds := 1, currentRound := 1 }

/-- Concrete sum-match sidegame over `cTeams`. -/
def cSidegame : TeamSidegame :=
  { id := "sg", tournamentId := "t", round := 1, gameType := GameType.sumMatch,
    teams := cTeams }

/-- Concrete all-vs-all sidegame over `cTeams`. -/
def cAvaSidegame : TeamSidegame :=
  { id := "sg2", tournamentId := "t", round := 1, gameType := GameType.allVsAll,
    teams := cTeams, groupings := some [["alice", "bob", "carol"]] }

/-! ### Helper lemmas -/

/-- The fixed Stableford points table is antitone in the score difference. -/
lemma pointsTable_antitone (d d' : Int) (h : d ≤ d') :
    (if d' ≤ -2 then (4 : Int) else if d' = -1 then 3 else if d' = 0 then 2
      else if d' = 1 then 1 else 0)
      ≤ (if d ≤ -2 then 4 else if d = -1 then 3 else if d = 0 then 2
      else if d = 1 then 1 else 0) := by
  split_ifs <;> omega

/-- The fixed Stableford points table only produces 0..4. -/
lemma pointsTable_mem (d : Int) :
    (if d ≤ -2 then (4 : Int) else if d = -1 then 3 else if d = 0 then 2
      else if d = 1 then 1 else 0) ∈ ([0, 1, 2, 3, 4] : List Int) := by
  split_ifs <;> decide

lemma totalPar_eq : totalPar = 72 := by decide

/-! ### C2: Stableford points -/

/-- C2: for every hole score, `calculateStablefordPoints` agrees with the
spec's reference definition (allowance `floor(R / 18) + (1 if idx ≤ R mod 18
else 0)` with idx the hole's stroke index, then the fixed 4/3/2/1/0 table on
strokes minus adjusted par); the result is always one of 0,1,2,3,4 and is
monotonically non-increasing as strokes grow with the other arguments
fixed. -/
theorem stableford_matches_spec_range_antitone :
    (∀ (strokes par : Int) (r : Nat) (hole : Int), 1 ≤ hole → hole ≤ 18 →
      calculateStablefordPoints strokes par r hole =
        stablefordSpecPoints strokes par r (standardIndex.getD (hole - 1).toNat 0))
    ∧ (∀ (strokes par : Int) (r : Nat) (hole : Int),
      calculateStablefordPoints strokes par r hole ∈ ([0, 1, 2, 3, 4] : List Int))
    ∧ (∀ (s s' par : Int) (r : Nat) (hole : Int), s ≤ s' →
      calculateStablefordPoints s' par r hole ≤ calculateStablefordPoints s par r hole) := by
  refine ⟨?_, ?_, ?_⟩
  · intro strokes par r hole h1 h2
    interval_cases hole <;> rfl
  · intro strokes par r hole
    simp only [calculateStablefordPoints]
    exact pointsTable_mem _
  · intro s s' par r hole hss
    simp only [calculateStablefordPoints]
    exact pointsTable_antitone _ _ (by omega)

/-- Witness for C2 at a concrete input (stroke index of hole 1 is 8; a player
receiving 11 strokes gets one extra allowance stroke there). -/
theorem stableford_matches_spec_witness :
    calculateStablefordPoints 4 4 11 1 = stablefordSpecPoints 4 4 11 8
    ∧ calculateStablefordPoints 4 4 11 1 ∈ ([0, 1, 2, 3, 4] : List Int)
    ∧ calculateStablefordPoints 5 4 11 1 ≤ calculateStablefordPoints 4 4 11 1 :=
  ⟨stableford_matches_spec_range_antitone.1 4 4 11 1 (by decide) (by decide),
   stableford_matches_spec_range_antitone.2.1 4 4 11 1,
   stableford_matches_spec_range_antitone.2.2 4 5 4 11 1 (by decide)⟩

/-! ### C5: course handicap -/

/-- C5: the received strokes computed at player setup equal
`max(0, round(index * slope / 113 + (courseRating - totalPar)))` with
`totalPar = 72` for the fixed par array; they are non-negative, and they are
monotone in the handicap index for a non-negative slope rating. -/
theorem receivedStrokes_formula_nonneg_mono (handicap slopeRating courseRating : ℚ)
    (hslope : 0 ≤ slopeRating) :
    receivedStrokesOf handicap slopeRating courseRating =
        max 0 (round (handicap * slopeRating / 113 + (courseRating - 72)))
    ∧ 0 ≤ receivedStrokesOf handicap slopeRating courseRating
    ∧ ∀ handicap', handicap ≤ handicap' →
        receivedStrokesOf handicap slopeRating courseRating ≤
          receivedStrokesOf handicap' slopeRating courseRating := by
  refine ⟨?_, le_max_left 0 _, ?_⟩
  · simp [receivedStrokesOf, courseHandicap, totalPar_eq]
  · intro handicap' hh
    have hnum : handicap * slopeRating / 113 + (courseRating - (totalPar : ℚ)) ≤
        handicap' * slopeRating / 113 + (courseRating - (totalPar : ℚ)) := by
      have hmul : handicap * slopeRating ≤ handicap' * slopeRating :=
        mul_le_mul_of_nonneg_right hh hslope
      have hdiv : handicap * slopeRating / 113 ≤ handicap' * slopeRating / 113 :=
        (div_le_div_iff_of_pos_right (by norm_num : (0 : ℚ) < 113)).mpr hmul
      linarith
    have hround : courseHandicap handicap slopeRating courseRating ≤
        courseHandicap handicap' slopeRating courseRating := by
      simp only [courseHandicap, round_eq]
      exact Int.floor_le_floor (by linarith)
    exact max_le_max le_rfl hround

/-- Witness for C5 with the real course data (slope 133, rating 72.7) and two
handicap indices 4.9 ≤ 5.0. -/
theorem receivedStrokes_witness :
    receivedStrokesOf (49 / 10) 133 (727 / 10) =
        max 0 (round ((49 / 10 : ℚ) * 133 / 113 + ((727 / 10 : ℚ) - 72)))
    ∧ 0 ≤ receivedStrokesOf (49 / 10) 133 (727 / 10)
    ∧ receivedStrokesOf (49 / 10) 133 (727 / 10) ≤ receivedStrokesOf 5 133 (727 / 10) :=
  ⟨(receivedStrokes_formula_nonneg_mono (49 / 10) 133 (727 / 10) (by norm_num)).1,
   (receivedStrokes_formula_nonneg_mono (49 / 10) 133 (727 / 10) (by norm_num)).2.1,
   (receivedStrokes_formula_nonneg_mono (49 / 10) 133 (727 / 10) (by norm_num)).2.2 5
     (by norm_num)⟩

/-! ### C3: individual leaderboard ranking -/

lemma lbCompare_trans (a b c : LeaderboardEntry)
    (h1 : lbCompare a b = true) (h2 : lbCompare b c = true) : lbCompare a c = true := by
  simp only [lbCompare, decide_eq_true_eq] at *
  omega

lemma lbCompare_total (a b : LeaderboardEntry) : (lbCompare a b || lbCompare b a) = true := by
  simp only [lbCompare, Bool.or_eq_true, decide_eq_true_eq]
  omega

lemma assignPositions_map_position (i : Nat) (l : List LeaderboardEntry) :
    (assignPositions i l).map (·.position) = List.range' (i + 1) l.length := by
  induction l generalizing i with
  | nil => rfl
  | cons e es ih => simp [assignPositions, List.range'_succ, ih]

lemma mem_assignPositions {x : LeaderboardEntry} :
    ∀ {i : Nat} {l : List LeaderboardEntry}, x ∈ assignPositions i l →
      ∃ y ∈ l, ∃ p, x = { y with position := p } := by
  intro i l
  induction l generalizing i with
  | nil => intro hx; simp [assignPositions] at hx
  | cons e es ih =>
    intro hx
    simp only [assignPositions, List.mem_cons] at hx
    rcases hx with hx | hx
    · exact ⟨e, List.mem_cons_self e es, i + 1, hx⟩
    · obtain ⟨y, hy, p, rfl⟩ := ih hx
      exact ⟨y, List.mem_cons_of_mem e hy, p, rfl⟩

lemma pairwise_assignPositions {R : LeaderboardEntry → LeaderboardEntry → Prop}
    (hR : ∀ a b p q, R a b → R { a with position := p } { b with position := q }) :
    ∀ (i : Nat) (l : List LeaderboardEntry), l.Pairwise R → (assignPositions i l).Pairwise R := by
  intro i l h
  induction h generalizing i with
  | nil => exact List.Pairwise.nil
  | @cons a l ha _ ih =>
    refine List.Pairwise.cons ?_ (ih (i + 1))
    intro x hx
    obtain ⟨y, hy, p, rfl⟩ := mem_assignPositions hx
    exact hR a y (i + 1) p (ha y hy)

/-- C3: for every tournament and display round, the generated leaderboard is
sorted by current score ascending with ties broken by holes completed
descending, its positions are exactly 1..n for the n roster players, and the
computation is deterministic (recomputing on the same state gives the same
output). -/
theorem generateLeaderboard_sorted_dense_deterministic (t : Tournament) (sr : Option Int) :
    (generateLeaderboard t sr).Pairwise (fun a b =>
        a.currentScore < b.currentScore ∨
          (a.currentScore = b.currentScore ∧ b.holesCompleted ≤ a.holesCompleted))
    ∧ (generateLeaderboard t sr).map (·.position) = List.range' 1 t.players.length
    ∧ generateLeaderboard t sr = generateLeaderboard t sr := by
  refine ⟨?_, ?_, rfl⟩
  · simp only [generateLeaderboard]
    apply pairwise_assignPositions (fun a b p q hab => hab)
    exact (List.sorted_mergeSort lbCompare_trans lbCompare_total _).imp
      (fun h => by simpa [lbCompare, decide_eq_true_eq] using h)
  · simp only [generateLeaderboard]
    rw [assignPositions_map_position]
    congr 1
    rw [(List.mergeSort_perm _ lbCompare).length_eq, List.length_map]

/-! ### C7: idempotent upsert of the ledger -/

lemma upsert_pred_iff (s e : ScoreEntry) :
    (decide (s.playerId = e.playerId ∧ s.hole = e.hole ∧ s.round = e.round) = true) ↔
      scoreKey s = scoreKey e := by
  simp [scoreKey, Prod.ext_iff]

lemma upsertScore_cons (x : ScoreEntry) (l : List ScoreEntry) (e : ScoreEntry) :
    upsertScore (x :: l) e =
      if scoreKey x = scoreKey e then e :: l else x :: upsertScore l e := by
  simp only [upsertScore, List.findIdx?_cons]
  by_cases h : scoreKey x = scoreKey e
  · rw [if_pos ((upsert_pred_iff x e).mpr h), if_pos h]
    simp
  · rw [if_neg (fun hc => h ((upsert_pred_iff x e).mp hc)), if_neg h, List.findIdx?_succ]
    cases hfi : List.findIdx? (fun s =>
        decide (s.playerId = e.playerId ∧ s.hole = e.hole ∧ s.round = e.round)) l with
    | none => simp [hfi]
    | some i => simp [hfi, List.set_cons_succ]

lemma mem_upsertScore {s e : ScoreEntry} :
    ∀ {l : List ScoreEntry}, s ∈ upsertScore l e → s ∈ l ∨ s = e := by
  intro l
  induction l with
  | nil =>
    intro h
    simp only [upsertScore, List.findIdx?_nil, List.nil_append, List.mem_singleton] at h
    exact Or.inr h
  | cons x xs ih =>
    intro hmem
    rw [upsertScore_cons] at hmem
    by_cases hx : scoreKey x = scoreKey e
    · rw [if_pos hx] at hmem
      rcases List.mem_cons.mp hmem with h1 | h1
      · exact Or.inr h1
      · exact Or.inl (List.mem_cons_of_mem x h1)
    · rw [if_neg hx] at hmem
      rcases List.mem_cons.mp hmem with h1 | h1
      · exact Or.inl (h1 ▸ List.mem_cons_self x xs)
      · rcases ih h1 with h2 | h2
        · exact Or.inl (List.mem_cons_of_mem x h2)
        · exact Or.inr h2

lemma upsertScore_filter_key (l : List ScoreEntry) (e : ScoreEntry)
    (hnd : (l.map scoreKey).Nodup) :
    (upsertScore l e).filter (fun s => decide (scoreKey s = scoreKey e)) = [e] := by
  induction l with
  | nil => simp [upsertScore]
  | cons x xs ih =>
    rw [upsertScore_cons]
    simp only [List.map_cons, List.nodup_cons] at hnd
    by_cases h : scoreKey x = scoreKey e
    · have hxs : List.filter (fun s => decide (scoreKey s = scoreKey e)) xs = [] := by
        rw [List.filter_eq_nil_iff]
        intro s hs
        simp only [decide_eq_true_eq]
        intro hkey
        exact hnd.1 (by rw [h, ← hkey]; exact List.mem_map_of_mem scoreKey hs)
      rw [if_pos h]
      simp [List.filter_cons, hxs]
    · rw [if_neg h]
      simp only [List.filter_cons, h, decide_False, Bool.false_eq_true, if_false]
      exact ih hnd.2

lemma upsertScore_nodup_keys (l : List ScoreEntry) (e : ScoreEntry)
    (hnd : (l.map scoreKey).Nodup) :
    ((upsertScore l e).map scoreKey).Nodup := by
  induction l with
  | nil => simp [upsertScore]
  | cons x xs ih =>
    rw [upsertScore_cons]
    simp only [List.map_cons, List.nodup_cons] at hnd
    by_cases h : scoreKey x = scoreKey e
    · simp only [if_pos h, List.map_cons, List.nodup_cons]
      exact ⟨h ▸ hnd.1, hnd.2⟩
    · simp only [if_neg h, List.map_cons, List.nodup_cons]
      refine ⟨?_, ih hnd.2⟩
      intro hc
      obtain ⟨s, hs, hkey⟩ := List.mem_map.mp hc
      rcases mem_upsertScore hs with hsl | rfl
      · exact hnd.1 (hkey ▸ List.mem_map_of_mem scoreKey hsl)
      · exact h hkey.symm

lemma finishDelete_nodup_keys (t : Tournament) (player? : Option Player) (hole? : Option Int)
    (scores : List ScoreEntry) (ts : Nat) (hnd : (scores.map scoreKey).Nodup) :
    (((finishDelete t player? hole? scores ts).2).scores.map scoreKey).Nodup := by
  simp only [finishDelete]
  split
  · split
    · exact hnd
    · split
      · exact hnd.sublist ((List.eraseP_sublist scores).map scoreKey)
      · exact hnd
  · exact hnd

lemma sortByTimestampDesc_nodup_keys (l : List ScoreEntry)
    (hl : (l.map scoreKey).Nodup) : ((sortByTimestampDesc l).map scoreKey).Nodup :=
  (((List.mergeSort_perm l _).map scoreKey).nodup_iff).mpr hl

lemma deleteScore_nodup_keys (t : Tournament) (u : ScoringUpdate) (ts : Nat)
    (hnd : (t.scores.map scoreKey).Nodup) :
    (((deleteScore t u ts).2).scores.map scoreKey).Nodup := by
  simp only [deleteScore]
  split
  · exact finishDelete_nodup_keys _ _ _ _ _ hnd
  · split
    · exact finishDelete_nodup_keys _ _ _ _ _ hnd
    · exact finishDelete_nodup_keys _ _ _ _ _ (sortByTimestampDesc_nodup_keys _ hnd)

/-- C7: recording a score upserts by the `(playerId, hole, round)` key. If the
ledger has no duplicate keys, it still has none after any scoring update (so
duplicates are never created), and whenever a recording (non-delete) update
succeeds with entry `e`, the resulting ledger holds exactly one entry with
`e`'s key, namely `e` itself — in particular recording and then immediately
overwriting the same key leaves one entry carrying the new strokes value. -/
theorem ledger_upsert_unique_key :
    (∀ (t : Tournament) (u : ScoringUpdate) (ts : Nat) (fid : String),
      (t.scores.map scoreKey).Nodup →
        ((((processScoringUpdate t u ts fid).2).scores.map scoreKey)).Nodup)
    ∧ (∀ (t : Tournament) (u : ScoringUpdate) (ts : Nat) (fid : String) (e : ScoreEntry),
      u.action ≠ ScoreAction.delete →
      (t.scores.map scoreKey).Nodup →
      (processScoringUpdate t u ts fid).1 = some e →
        (((processScoringUpdate t u ts fid).2).scores.filter
          (fun s => decide (scoreKey s = scoreKey e))) = [e]) := by
  constructor
  · intro t u ts fid hnd
    simp only [processScoringUpdate]
    split
    · exact deleteScore_nodup_keys t u ts hnd
    · split
      · exact hnd
      · split
        · exact hnd
        · exact upsertScore_nodup_keys _ _ hnd
  · intro t u ts fid e hne hnd hsome
    revert hsome
    simp only [processScoringUpdate]
    split
    · intro h1
      exact absurd (by assumption) hne
    · split
      · intro h1
        simp at h1
      · split
        · intro h1
          simp at h1
        · intro h1
          simp only [Option.some.injEq] at h1
          subst h1
          exact upsertScore_filter_key _ _ hnd

/-- Witness for C7: a one-player tournament records strokes 5 on hole 3 and
then overwrites the same key with strokes 4; the key invariant and the
single-entry conclusion are checked on that concrete run. -/
theorem ledger_upsert_witness :
    (((processScoringUpdate
        { id := "t", par := standardPar,
          players := [{ id := "a", name := "Alice", currentHole := 1 }],
          scores := [{ playerId := "a", hole := 3, round := 1, strokes := 5, par := 5,
                       timestamp := 10 }],
          totalRounds := 1, currentRound := 1 }
        { player := "Alice", hole := some 3, strokes := some 4, action := ScoreAction.score }
        20 "fresh").2).scores.map scoreKey).Nodup
    ∧ (((processScoringUpdate
        { id := "t", par := standardPar,
          players := [{ id := "a", name := "Alice", currentHole := 1 }],
          scores := [{ playerId := "a", hole := 3, round := 1, strokes := 5, par := 5,
                       timestamp := 10 }],
          totalRounds := 1, currentRound := 1 }
        { player := "Alice", hole := some 3, strokes := some 4, action := ScoreAction.score }
        20 "fresh").2).scores.filter
          (fun s => decide (scoreKey s =
            scoreKey { playerId := "a", hole := 3, round := 1, strokes := 4, par := 5,
                       timestamp := 20 }))) =
      [{ playerId := "a", hole := 3, round := 1, strokes := 4, par := 5, timestamp := 20 }] :=
  ⟨ledger_upsert_unique_key.1
      { id := "t", par := standardPar,
        players := [{ id := "a", name := "Alice", currentHole := 1 }],
        scores := [{ playerId := "a", hole := 3, round := 1, strokes := 5, par := 5,
                     timestamp := 10 }],
        totalRounds := 1, currentRound := 1 }
      { player := "Alice", hole := some 3, strokes := some 4, action := ScoreAction.score }
      20 "fresh" (by decide),
   ledger_upsert_unique_key.2
      { id := "t", par := standardPar,
        players := [{ id := "a", name := "Alice", currentHole := 1 }],
        scores := [{ playerId := "a", hole := 3, round := 1, strokes := 5, par := 5,
                     timestamp := 10 }],
        totalRounds := 1, currentRound := 1 }
      { player := "Alice", hole := some 3, strokes := some 4, action := ScoreAction.score }
      20 "fresh"
      { playerId := "a", hole := 3, round := 1, strokes := 4, par := 5, timestamp := 20 }
      (by decide) (by decide) (by decide)⟩

/-! ### C9: frame of score processing on the roster -/

lemma finishDelete_frame (t : Tournament) (player? : Option Player) (hole? : Option Int)
    (scores : List ScoreEntry) (ts : Nat) :
    ((finishDelete t player? hole? scores ts).2).players = t.players
    ∧ ((finishDelete t player? hole? scores ts).2).id = t.id
    ∧ ((finishDelete t player? hole? scores ts).2).par = t.par
    ∧ ((finishDelete t player? hole? scores ts).2).totalRounds = t.totalRounds
    ∧ ((finishDelete t player? hole? scores ts).2).currentRound = t.currentRound := by
  simp only [finishDelete]
  split
  · split
    · exact ⟨rfl, rfl, rfl, rfl, rfl⟩
    · split <;> exact ⟨rfl, rfl, rfl, rfl, rfl⟩
  · exact ⟨rfl, rfl, rfl, rfl, rfl⟩

lemma deleteScore_frame (t : Tournament) (u : ScoringUpdate) (ts : Nat) :
    ((deleteScore t u ts).2).players = t.players
    ∧ ((deleteScore t u ts).2).id = t.id
    ∧ ((deleteScore t u ts).2).par = t.par
    ∧ ((deleteScore t u ts).2).totalRounds = t.totalRounds
    ∧ ((deleteScore t u ts).2).currentRound = t.currentRound := by
  simp only [deleteScore]
  split
  · exact finishDelete_frame _ _ _ _ _
  · split
    · exact finishDelete_frame _ _ _ _ _
    · exact finishDelete_frame _ _ _ _ _

lemma map_playerIdentity_currentHole_update (l : List Player) (c : Player → Prop)
    [DecidablePred c] (nh : Int) :
    (l.map (fun q => if c q then { q with currentHole := nh } else q)).map playerIdentity =
      l.map playerIdentity := by
  rw [List.map_map]
  apply List.map_congr_left
  intro q _
  by_cases hq : c q <;> simp [hq, playerIdentity]

/-- C9 (amended): processing a scoring update mutates at most the ledger and
current-hole pointers; every tournament field other than scores and players
is unchanged, and the players list keeps every existing player's id, name,
handicap and received strokes — except that a recording update whose player
name matches nobody appends one new player (fresh id, the update's name, no
handicap, no received strokes). -/
theorem processScoringUpdate_frame (t : Tournament) (u : ScoringUpdate) (ts : Nat)
    (fid : String) :
    (((processScoringUpdate t u ts fid).2).players.map playerIdentity =
        t.players.map playerIdentity
      ∨ ((processScoringUpdate t u ts fid).2).players.map playerIdentity =
        t.players.map playerIdentity ++ [(fid, u.player, none, none)])
    ∧ ((processScoringUpdate t u ts fid).2).id = t.id
    ∧ ((processScoringUpdate t u ts fid).2).par = t.par
    ∧ ((processScoringUpdate t u ts fid).2).totalRounds = t.totalRounds
    ∧ ((processScoringUpdate t u ts fid).2).currentRound = t.currentRound := by
  simp only [processScoringUpdate]
  split
  · obtain ⟨h1, h2, h3, h4, h5⟩ := deleteScore_frame t u ts
    exact ⟨Or.inl (by rw [h1]), h2, h3, h4, h5⟩
  · split
    · exact ⟨Or.inl rfl, rfl, rfl, rfl, rfl⟩
    · split
      · refine ⟨?_, rfl, rfl, rfl, rfl⟩
        split
        · exact Or.inl rfl
        · split
          · exact Or.inr (by simp [playerIdentity])
          · exact Or.inl rfl
      · refine ⟨?_, rfl, rfl, rfl, rfl⟩
        rw [map_playerIdentity_currentHole_update]
        split
        · exact Or.inl rfl
        · split
          · exact Or.inr (by simp [playerIdentity])
          · exact Or.inl rfl

/-- Counterexample to C9 as stated: with an empty roster, recording a score
for "Zed" creates and appends a player as a side effect, so the roster
membership is not preserved by score processing. -/
theorem player_autocreation_counterexample :
    (((processScoringUpdate
        { id := "t", par := standardPar, players := [], scores := [],
          totalRounds := 1, currentRound := 1 }
        { player := "Zed", hole := some 1, strokes := some 4, action := ScoreAction.score }
        5 "fresh").2).players.map (fun p => p.name)) = ["Zed"] := by decide

/-! ### C10: deletion matches on player and hole only -/

lemma find?_first_match {p : ScoreEntry → Bool} {pre : List ScoreEntry} {e : ScoreEntry}
    (post : List ScoreEntry) (hpre : ∀ x ∈ pre, p x = false) (he : p e = true) :
    (pre ++ e :: post).find? p = some e := by
  induction pre with
  | nil => simp [List.find?_cons, he]
  | cons x xs ih =>
    rw [List.cons_append, List.find?_cons, hpre x (List.mem_cons_self x xs)]
    exact ih (fun y hy => hpre y (List.mem_cons_of_mem x hy))

lemma eraseP_first_match {p : ScoreEntry → Bool} {pre : List ScoreEntry} {e : ScoreEntry}
    (post : List ScoreEntry) (hpre : ∀ x ∈ pre, p x = false) (he : p e = true) :
    (pre ++ e :: post).eraseP p = pre ++ post := by
  induction pre with
  | nil => simp [List.eraseP_cons, he]
  | cons x xs ih =>
    rw [List.cons_append, List.eraseP_cons, hpre x (List.mem_cons_self x xs)]
    simp only [cond_false, List.cons_append, List.cons.injEq, true_and]
    exact ih (fun y hy => hpre y (List.mem_cons_of_mem x hy))

/-- C10: when a delete update names a player (resolving to `p`) and a hole,
the entry removed is the first ledger entry matching `(p.id, hole)` — its
round is not examined, so an entry from a different (for example earlier)
round than the current one is removed if it is stored first. -/
theorem deleteScore_ignores_round (t : Tournament) (u : ScoringUpdate) (ts : Nat)
    (fid : String) (p : Player) (h : Int) (pre post : List ScoreEntry) (e : ScoreEntry)
    (hact : u.action = ScoreAction.delete)
    (hplayer : u.player ≠ "")
    (hfind : findPlayer t.players u.player = some p)
    (hhole : u.hole = some h) (hh0 : h ≠ 0)
    (hscores : t.scores = pre ++ e :: post)
    (hepid : e.playerId = p.id) (hehole : e.hole = h)
    (hpre : ∀ x ∈ pre, ¬(x.playerId = p.id ∧ x.hole = h)) :
    (processScoringUpdate t u ts fid).1 =
      some { playerId := p.id, hole := h, round := e.round, strokes := 0, par := e.par,
             timestamp := ts }
    ∧ ((processScoringUpdate t u ts fid).2).scores = pre ++ post := by
  have hpre' : ∀ x ∈ pre, (fun s => decide (s.playerId = p.id ∧ s.hole = h)) x = false := by
    intro x hx
    simpa using hpre x hx
  have he' : (fun s => decide (s.playerId = p.id ∧ s.hole = h)) e = true := by
    simp [hepid, hehole]
  simp only [processScoringUpdate, hact, if_pos, deleteScore, hhole, hplayer, hfind, hh0,
    ite_true, reduceIte, ne_eq, not_false_eq_true, finishDelete, hscores]
  rw [find?_first_match post hpre' he', eraseP_first_match post hpre' he']
  simp [hh0]

/-- Witness for C10: the ledger holds hole-5 entries for the same player in
round 1 (stored first) and round 2; with the tournament in round 2, the
delete removes the round-1 entry. -/
theorem deleteScore_ignores_round_witness :
    (processScoringUpdate
        { id := "t", par := standardPar,
          players := [{ id := "a", name := "Alice", currentHole := 6 }],
          scores := [{ playerId := "a", hole := 5, round := 1, strokes := 4, par := 5,
                       timestamp := 10 },
                     { playerId := "a", hole := 5, round := 2, strokes := 6, par := 5,
                       timestamp := 20 }],
          totalRounds := 2, currentRound := 2 }
        { player := "Alice", hole := some 5, strokes := none, action := ScoreAction.delete }
        30 "fresh").1 =
      some { playerId := "a", hole := 5, round := 1, strokes := 0, par := 5, timestamp := 30 }
    ∧ ((processScoringUpdate
        { id := "t", par := standardPar,
          players := [{ id := "a", name := "Alice", currentHole := 6 }],
          scores := [{ playerId := "a", hole := 5, round := 1, strokes := 4, par := 5,
                       timestamp := 10 },
                     { playerId := "a", hole := 5, round := 2, strokes := 6, par := 5,
                       timestamp := 20 }],
          totalRounds := 2, currentRound := 2 }
        { player := "Alice", hole := some 5, strokes := none, action := ScoreAction.delete }
        30 "fresh").2).scores =
      [{ playerId := "a", hole := 5, round := 2, strokes := 6, par := 5, timestamp := 20 }] :=
  deleteScore_ignores_round
    { id := "t", par := standardPar,
      players := [{ id := "a", name := "Alice", currentHole := 6 }],
      scores := [{ playerId := "a", hole := 5, round := 1, strokes := 4, par := 5,
                   timestamp := 10 },
                 { playerId := "a", hole := 5, round := 2, strokes := 6, par := 5,
                   timestamp := 20 }],
      totalRounds := 2, currentRound := 2 }
    { player := "Alice", hole := some 5, strokes := none, action := ScoreAction.delete }
    30 "fresh"
    { id := "a", name := "Alice", currentHole := 6 } 5
    []
    [{ playerId := "a", hole := 5, round := 2, strokes := 6, par := 5, timestamp := 20 }]
    { playerId := "a", hole := 5, round := 1, strokes := 4, par := 5, timestamp := 10 }
    (by decide) (by decide) (by decide) (by decide) (by decide) (by decide)
    (by decide) (by decide) (by decide)

/-! ### C4: missing range validation on the recording path -/

/-- C4: the recording path performs no range validation. The zod
`ScoreEntrySchema` declares `hole ∈ [1,18]` and `strokes ≥ 1`, but neither
`processScoringUpdate` nor the manual-score handler enforces it: a manual
score for hole 19 (strokes 5) and one for hole 2 with strokes −3 both pass
the handler's presence checks and land in the ledger, violating the declared
entry invariant. -/
theorem unvalidated_score_enters_ledger :
    (Option.map (fun r => (r.2).scores.map (fun s => (s.hole, s.strokes)))
        (manualScore
          { id := "t", par := standardPar,
            players := [{ id := "a", name := "Alice", currentHole := 1 }],
            scores := [], totalRounds := 1, currentRound := 1 }
          "a" 19 (some (some 5)) 100 "fresh")) = some [(19, 5)]
    ∧ (Option.map (fun r => (r.2).scores.map (fun s => (s.hole, s.strokes)))
        (manualScore
          { id := "t", par := standardPar,
            players := [{ id := "a", name := "Alice", currentHole := 1 }],
            scores := [], totalRounds := 1, currentRound := 1 }
          "a" 2 (some (some (-3))) 100 "fresh")) = some [(2, -3)] := by
  decide

/-! ### C6: all-vs-all pairwise scoring -/

lemma pairContrib_nonneg (teams : List Team) (hr : List (String × Int)) (i : String)
    (pq : String × String) : 0 ≤ pairContrib teams hr i pq := by
  unfold pairContrib
  cases getPlayerTeam teams pq.1 with
  | none => exact le_refl 0
  | some t1 =>
    cases getPlayerTeam teams pq.2 with
    | none => exact le_refl 0
    | some t2 =>
      show (0 : Int) ≤
        (if t1.id ≠ t2.id then
          if (hr.lookup pq.1).getD 0 > (hr.lookup pq.2).getD 0 then
            (if t1.id = i then 1 else 0)
          else if (hr.lookup pq.2).getD 0 > (hr.lookup pq.1).getD 0 then
            (if t2.id = i then 1 else 0)
          else 0
         else 0)
      split_ifs <;> omega

lemma update_add_one_apply (acc : String → Int) (j i : String) :
    Function.update acc j (acc j + 1) i = acc i + (if j = i then 1 else 0) := by
  rw [Function.update_apply]
  by_cases hi : i = j
  · subst hi
    simp
  · rw [if_neg hi, if_neg (fun hc => hi hc.symm)]
    ring

lemma pairStep_apply (teams : List Team) (hr : List (String × Int)) (acc : String → Int)
    (p1 p2 : String) (i : String) :
    pairStep teams hr acc p1 p2 i = acc i + pairContrib teams hr i (p1, p2) := by
  unfold pairStep pairContrib
  cases getPlayerTeam teams p1 with
  | none => simp
  | some t1 =>
    cases getPlayerTeam teams p2 with
    | none => simp
    | some t2 =>
      show (if t1.id ≠ t2.id then
              if (hr.lookup p1).getD 0 > (hr.lookup p2).getD 0 then
                Function.update acc t1.id (acc t1.id + 1)
              else if (hr.lookup p2).getD 0 > (hr.lookup p1).getD 0 then
                Function.update acc t2.id (acc t2.id + 1)
              else acc
            else acc) i =
          acc i +
            (if t1.id ≠ t2.id then
              if (hr.lookup p1).getD 0 > (hr.lookup p2).getD 0 then
                (if t1.id = i then 1 else 0)
              else if (hr.lookup p2).getD 0 > (hr.lookup p1).getD 0 then
                (if t2.id = i then 1 else 0)
              else 0
             else 0)
      by_cases hne : t1.id = t2.id
      · rw [if_neg (fun hc => hc hne), if_neg (fun hc => hc hne)]
        ring
      · rw [if_pos hne, if_pos hne]
        by_cases hgt : (hr.lookup p1).getD 0 > (hr.lookup p2).getD 0
        · rw [if_pos hgt, if_pos hgt, update_add_one_apply]
        · rw [if_neg hgt, if_neg hgt]
          by_cases hlt : (hr.lookup p2).getD 0 > (hr.lookup p1).getD 0
          · rw [if_pos hlt, if_pos hlt, update_add_one_apply]
          · rw [if_neg hlt, if_neg hlt]
            ring

lemma foldl_pairStep (teams : List Team) (hr : List (String × Int)) (p : String) (i : String) :
    ∀ (rest : List String) (acc : String → Int),
      (rest.foldl (fun a q => pairStep teams hr a p q) acc) i =
        acc i + ((rest.map (fun q => pairContrib teams hr i (p, q))).sum) := by
  intro rest
  induction rest with
  | nil => intro acc; simp
  | cons q qs ih =>
    intro acc
    simp only [List.foldl_cons, List.map_cons, List.sum_cons]
    rw [ih, pairStep_apply]
    ring

lemma processGroupPairs_apply (teams : List Team) (hr : List (String × Int)) (i : String) :
    ∀ (l : List String) (acc : String → Int),
      processGroupPairs teams hr acc l i = acc i + ((allPairs l).map (pairContrib teams hr i)).sum := by
  intro l
  induction l with
  | nil => intro acc; simp [processGroupPairs, allPairs]
  | cons p rest ih =>
    intro acc
    simp only [processGroupPairs, allPairs, List.map_append, List.sum_append, List.map_map]
    rw [ih, foldl_pairStep]
    simp only [Function.comp_def]
    ring

/-- C6: the all-vs-all computation awards, for every team, exactly the sum
over groups and over the unique unordered cross-team pairs of present players
of the winner-take-one contribution (strictly higher Stableford result wins
+1 for its team, ties and intra-team pairs give nothing, losers lose
nothing); consequently no team's total is ever negative. -/
theorem allVsAll_pairwise_sum (teams : List Team) (holeResults : List (String × Int))
    (groupings : List (List String)) (i : String) :
    calculateAllVsAllPoints teams holeResults groupings i =
      (groupings.map (fun g =>
        ((allPairs (g.filter (fun pn => (holeResults.lookup pn).isSome))).map
          (pairContrib teams holeResults i)).sum)).sum
    ∧ 0 ≤ calculateAllVsAllPoints teams holeResults groupings i := by
  have hfold : ∀ (gs : List (List String)) (acc : String → Int),
      (gs.foldl (fun acc g =>
          processGroupPairs teams holeResults acc
            (g.filter (fun pn => (holeResults.lookup pn).isSome))) acc) i =
        acc i + (gs.map (fun g =>
          ((allPairs (g.filter (fun pn => (holeResults.lookup pn).isSome))).map
            (pairContrib teams holeResults i)).sum)).sum := by
    intro gs
    induction gs with
    | nil => intro acc; simp
    | cons g rest ih =>
      intro acc
      simp only [List.foldl_cons, List.map_cons, List.sum_cons]
      rw [ih, processGroupPairs_apply]
      ring
  have heq : calculateAllVsAllPoints teams holeResults groupings i =
      (groupings.map (fun g =>
        ((allPairs (g.filter (fun pn => (holeResults.lookup pn).isSome))).map
          (pairContrib teams holeResults i)).sum)).sum := by
    simp only [calculateAllVsAllPoints]
    rw [hfold]
    simp
  refine ⟨heq, ?_⟩
  rw [heq]
  apply List.sum_nonneg
  intro x hx
  obtain ⟨g, _, rfl⟩ := List.mem_map.mp hx
  apply List.sum_nonneg
  intro y hy
  obtain ⟨pq, _, rfl⟩ := List.mem_map.mp hy
  exact pairContrib_nonneg teams holeResults i pq

/-! ### C1: sum-match award rules at the two call sites -/

lemma foldl_update_const (ids : List String) (v : Int) (i : String) :
    ∀ acc : String → Int,
      (ids.foldl (fun a j => Function.update a j v) acc) i = if i ∈ ids then v else acc i := by
  induction ids with
  | nil => intro acc; simp
  | cons j rest ih =>
    intro acc
    simp only [List.foldl_cons, ih, List.mem_cons]
    by_cases h1 : i ∈ rest
    · simp [h1]
    · by_cases h2 : i = j <;> simp [h1, h2, Function.update_apply]

lemma mem_extreme_ids (teams : List Team) (diff : String → Int) (v : Int) (tm : Team)
    (hmem : tm ∈ teams) :
    tm.id ∈ ((teams.filter (fun x => decide (diff x.id = v))).map (·.id)) ↔
      diff tm.id = v := by
  simp only [List.mem_map, List.mem_filter, decide_eq_true_eq]
  constructor
  · rintro ⟨x, ⟨_, hxv⟩, hxid⟩
    rw [← hxid]
    exact hxv
  · intro hv
    exact ⟨tm, ⟨hmem, hv⟩, rfl⟩

lemma sumMatchAward_apply (teams : List Team) (diff : String → Int) (tm : Team)
    (hmem : tm ∈ teams) (best worst : Int)
    (hmin : (teams.map (fun x => diff x.id)).min? = some best)
    (hmax : (teams.map (fun x => diff x.id)).max? = some worst) :
    sumMatchAward teams diff tm.id =
      if best ≠ worst then
        (if diff tm.id = worst then -1 else if diff tm.id = best then 1 else 0)
      else 0 := by
  simp only [sumMatchAward]
  rw [hmin, hmax]
  show (if best ≠ worst then
          (((teams.filter (fun x => decide (diff x.id = worst))).map (·.id)).foldl
            (fun acc i => Function.update acc i (-1))
            (((teams.filter (fun x => decide (diff x.id = best))).map (·.id)).foldl
              (fun acc i => Function.update acc i 1) (fun _ => 0)))
        else fun _ => 0) tm.id = _
  by_cases hbw : best = worst
  · rw [if_neg (fun hc => hc hbw), if_neg (fun hc => hc hbw)]
  · rw [if_pos hbw, if_pos hbw, foldl_update_const, foldl_update_const]
    simp only [mem_extreme_ids teams diff worst tm hmem, mem_extreme_ids teams diff best tm hmem]

lemma filter_eq_singleton_of_unique (p : Team → Bool) :
    ∀ (teams : List Team) (tm : Team), tm ∈ teams → (teams.map (·.id)).Nodup →
      p tm = true → (∀ x ∈ teams, p x = true → x = tm) → teams.filter p = [tm] := by
  intro teams
  induction teams with
  | nil => intro tm h; simp at h
  | cons y ys ih =>
    intro tm hmem hnd hp huniq
    simp only [List.map_cons, List.nodup_cons] at hnd
    rcases List.mem_cons.mp hmem with rfl | hmem2
    · rw [List.filter_cons_of_pos hp]
      have hys : ys.filter p = [] := by
        rw [List.filter_eq_nil_iff]
        intro x hx hpx
        have hx2 : x = tm := huniq x (List.mem_cons_of_mem tm hx) hpx
        subst hx2
        exact hnd.1 (List.mem_map_of_mem (·.id) hx)
      rw [hys]
    · have hpy : p y = false := by
        rw [← Bool.not_eq_true]
        intro hpy
        have hy2 : y = tm := huniq y (List.mem_cons_self y ys) hpy
        subst hy2
        exact hnd.1 (List.mem_map_of_mem (·.id) hmem2)
      rw [List.filter_cons_of_neg (by simp [hpy])]
      exact ih tm hmem2 hnd.2 hp (fun x hx hpx => huniq x (List.mem_cons_of_mem y hx) hpx)

lemma filter_map_id_eq_singleton_iff (teams : List Team) (diff : String → Int) (v : Int)
    (tm : Team) (hmem : tm ∈ teams) (hnd : (teams.map (·.id)).Nodup) :
    ((teams.filter (fun x => decide (diff x.id = v))).map (·.id) = [tm.id]) ↔
      (diff tm.id = v ∧ ∀ x ∈ teams, diff x.id = v → x = tm) := by
  constructor
  · intro heq
    have hlen : (teams.filter (fun x => decide (diff x.id = v))).length = 1 := by
      have := congrArg List.length heq
      simpa using this
    obtain ⟨x0, hx0⟩ := List.length_eq_one.mp hlen
    have hx0mem : x0 ∈ teams :=
      List.mem_of_mem_filter (hx0 ▸ List.mem_singleton.mpr rfl)
    have hx0v : diff x0.id = v := by
      have := List.of_mem_filter (l := teams) (hx0 ▸ List.mem_singleton.mpr rfl)
      simpa using this
    have hx0id : x0.id = tm.id := by
      have := congrArg (List.map (·.id)) hx0
      rw [heq] at this
      simpa using this.symm
    have hx0tm : x0 = tm := List.inj_on_of_nodup_map hnd hx0mem hmem hx0id
    subst hx0tm
    refine ⟨hx0v, ?_⟩
    intro x hx hxv
    have : x ∈ teams.filter (fun x => decide (diff x.id = v)) :=
      List.mem_filter.mpr ⟨hx, by simpa using hxv⟩
    rw [hx0] at this
    exact List.mem_singleton.mp this
  · rintro ⟨hv, huniq⟩
    rw [filter_eq_singleton_of_unique _ teams tm hmem hnd (by simpa using hv)
      (fun x hx hpx => huniq x hx (by simpa using hpx))]
    rfl

lemma leaderboardHoleStep_apply (teams : List Team) (t : Tournament) (acc : String → Int)
    (hole : Int) (i : String) (best worst : Int)
    (hmin : (teams.map (fun x => leaderboardHoleDiffs teams t hole x.id)).min? = some best)
    (hmax : (teams.map (fun x => leaderboardHoleDiffs teams t hole x.id)).max? = some worst) :
    leaderboardHoleStep teams t acc hole i =
      if best ≠ worst then
        acc i
          + (if ((teams.filter (fun x =>
              decide (leaderboardHoleDiffs teams t hole x.id = best))).map (·.id)) = [i]
             then 1 else 0)
          + (if ((teams.filter (fun x =>
              decide (leaderboardHoleDiffs teams t hole x.id = worst))).map (·.id)) = [i]
             then -1 else 0)
      else acc i := by
  simp only [leaderboardHoleStep]
  rw [hmin, hmax]
  show (if best ≠ worst then
          (match ((teams.filter (fun x : Team =>
              decide (leaderboardHoleDiffs teams t hole x.id = worst))).map
                (fun x : Team => x.id) : List String) with
           | [l] =>
             Function.update
               (match ((teams.filter (fun x : Team =>
                   decide (leaderboardHoleDiffs teams t hole x.id = best))).map
                     (fun x : Team => x.id) : List String) with
                | [w] => Function.update acc w (acc w + 1)
                | _ => acc) l
               ((match ((teams.filter (fun x : Team =>
                   decide (leaderboardHoleDiffs teams t hole x.id = best))).map
                     (fun x : Team => x.id) : List String) with
                 | [w] => Function.update acc w (acc w + 1)
                 | _ => acc) l - 1)
           | _ =>
             (match ((teams.filter (fun x : Team =>
                 decide (leaderboardHoleDiffs teams t hole x.id = best))).map
                   (fun x : Team => x.id) : List String) with
              | [w] => Function.update acc w (acc w + 1)
              | _ => acc))
        else acc) i = _
  by_cases hbw : best = worst
  · rw [if_neg (fun hc => hc hbw), if_neg (fun hc => hc hbw)]
  · rw [if_pos hbw, if_pos hbw]
    rcases hw : (((teams.filter (fun x =>
        decide (leaderboardHoleDiffs teams t hole x.id = best))).map (fun x : Team => x.id)) :
        List String) with _ | ⟨w, _ | ws⟩ <;>
      rcases hl : (((teams.filter (fun x =>
          decide (leaderboardHoleDiffs teams t hole x.id = worst))).map (fun x : Team => x.id)) :
          List String) with _ | ⟨l, _ | ls⟩ <;>
      rw [hw, hl]
    all_goals dsimp only
    all_goals simp only [Function.update_apply, List.cons.injEq, and_true, List.cons_ne_nil,
      List.nil_eq, reduceCtorEq, if_false]
    all_goals (try split_ifs)
    all_goals (try subst_vars)
    all_goals (first | rfl | ring1 | omega | (exfalso; tauto))

/-- C1 (amended): the two sum-match call sites award differently. In
`calculateSumMatchPoints`, when the best and worst team totals differ, every
team whose strokes-vs-par total equals the worst receives −1, every team at
the best receives +1 (all tied teams at an extreme receive the point), and
everyone else 0; when best = worst no points are awarded. In the team
leaderboard recompute (`leaderboardHoleStep`), a team gains +1 only when it
is the sole team attaining the best total and loses 1 only when it is the
sole team at the worst; teams tied at an extreme receive nothing there. -/
theorem sumMatch_award_rules :
    (∀ (teams : List Team) (holeResults : List (String × Int)) (hole : Int) (tm : Team)
        (best worst : Int), tm ∈ teams →
      ((teams.map (fun x => accumulateTeamDiffs teams hole holeResults x.id)).min? =
        some best) →
      ((teams.map (fun x => accumulateTeamDiffs teams hole holeResults x.id)).max? =
        some worst) →
      calculateSumMatchPoints teams holeResults hole tm.id =
        if best ≠ worst then
          (if accumulateTeamDiffs teams hole holeResults tm.id = worst then -1
           else if accumulateTeamDiffs teams hole holeResults tm.id = best then 1 else 0)
        else 0)
    ∧ (∀ (teams : List Team) (t : Tournament) (acc : String → Int) (hole : Int) (tm : Team)
        (best worst : Int), tm ∈ teams → (teams.map (·.id)).Nodup →
      ((teams.map (fun x => leaderboardHoleDiffs teams t hole x.id)).min? = some best) →
      ((teams.map (fun x => leaderboardHoleDiffs teams t hole x.id)).max? = some worst) →
      best ≠ worst →
      leaderboardHoleStep teams t acc hole tm.id =
        acc tm.id
          + (if leaderboardHoleDiffs teams t hole tm.id = best ∧
                (∀ x ∈ teams, leaderboardHoleDiffs teams t hole x.id = best → x = tm)
             then 1 else 0)
          + (if leaderboardHoleDiffs teams t hole tm.id = worst ∧
                (∀ x ∈ teams, leaderboardHoleDiffs teams t hole x.id = worst → x = tm)
             then -1 else 0)) := by
  constructor
  · intro teams holeResults hole tm best worst hmem hmin hmax
    exact sumMatchAward_apply teams _ tm hmem best worst hmin hmax
  · intro teams t acc hole tm best worst hmem hnd hmin hmax hbw
    rw [leaderboardHoleStep_apply teams t acc hole tm.id best worst hmin hmax, if_pos hbw]
    simp only [filter_map_id_eq_singleton_iff teams _ best tm hmem hnd,
      filter_map_id_eq_singleton_iff teams _ worst tm hmem hnd]

/-- Counterexample to C1 as stated: on `cT`'s hole 1, red and blue tie at the
best total (−1) and teal alone is worst (+1). The per-hole helper awards both
tied best teams +1 (red gets 1), but the leaderboard recompute awards red
nothing — its total after the only played hole is 0, not the +1 the claim
requires at that call site. -/
theorem sumMatch_award_claim_counterexample :
    leaderboardHoleDiffs cTeams cT 1 "red" = -1
    ∧ leaderboardHoleDiffs cTeams cT 1 "blue" = -1
    ∧ leaderboardHoleDiffs cTeams cT 1 "teal" = 1
    ∧ calculateSumMatchPoints cTeams [("alice", -1), ("bob", -1), ("carol", 1)] 1 "red" = 1
    ∧ distinctHoles cT.scores cT.currentRound = [1]
    ∧ (distinctHoles cT.scores cT.currentRound).foldl
        (leaderboardHoleStep cTeams cT) (fun _ => 0) "red" = 0 := by
  decide

/-- Witness for C1 at concrete data: the helper awards tied-best red +1 while
the leaderboard step awards sole-worst teal −1. -/
theorem sumMatch_award_rules_witness :
    calculateSumMatchPoints cTeams [("alice", -1), ("bob", -1), ("carol", 1)] 1 "red" = 1
    ∧ leaderboardHoleStep cTeams cT (fun _ => 0) 1 "teal" = -1 :=
  ⟨(sumMatch_award_rules.1 cTeams [("alice", -1), ("bob", -1), ("carol", 1)] 1
      { id := "red", name := "Red", color := "r", players := ["alice"] } (-1) 1
      (by decide) (by decide) (by decide)).trans (by decide),
   (sumMatch_award_rules.2 cTeams cT (fun _ => 0) 1
      { id := "teal", name := "Teal", color := "c", players := ["carol"] } (-1) 1
      (by decide) (by decide) (by decide) (by decide) (by decide)).trans (by decide)⟩

/-! ### C8: team leaderboard ordering -/

lemma lexLe_refl : ∀ xs : List Char, lexLe xs xs = true := by
  intro xs
  induction xs with
  | nil => rfl
  | cons a as ih => simp [lexLe, lt_irrefl, ih]

lemma lexLe_total : ∀ xs ys : List Char, (lexLe xs ys || lexLe ys xs) = true := by
  intro xs
  induction xs with
  | nil => intro ys; simp [lexLe]
  | cons a as ih =>
    intro ys
    cases ys with
    | nil => simp [lexLe]
    | cons b bs =>
      simp only [lexLe, Bool.or_eq_true]
      rcases lt_trichotomy a b with h | h | h
      · left
        simp [h]
      · subst h
        rcases Bool.or_eq_true _ _ |>.mp (ih bs) with h2 | h2
        · left
          simp [lt_irrefl, h2]
        · right
          simp [lt_irrefl, h2]
      · right
        simp [h]

lemma lexLe_trans : ∀ xs ys zs : List Char,
    lexLe xs ys = true → lexLe ys zs = true → lexLe xs zs = true := by
  intro xs
  induction xs with
  | nil => intro ys zs h1 h2; rfl
  | cons a as ih =>
    intro ys zs h1 h2
    cases ys with
    | nil => simp [lexLe] at h1
    | cons b bs =>
      cases zs with
      | nil => simp [lexLe] at h2
      | cons c cs =>
        simp only [lexLe] at h1 h2 ⊢
        rcases lt_trichotomy a b with hab | hab | hab
        · rcases lt_trichotomy b c with hbc | hbc | hbc
          · simp [lt_trans hab hbc]
          · subst hbc
            simp [hab]
          · rw [if_neg (not_lt_of_gt hbc), if_pos hbc] at h2
            simp at h2
        · subst hab
          rw [if_neg (lt_irrefl a), if_neg (lt_irrefl a)] at h1
          rcases lt_trichotomy a c with hac | hac | hac
          · simp [hac]
          · subst hac
            rw [if_neg (lt_irrefl a), if_neg (lt_irrefl a)] at h2 ⊢
            exact ih bs cs h1 h2
          · rw [if_neg (not_lt_of_gt hac), if_pos hac] at h2
            simp at h2
        · rw [if_neg (not_lt_of_gt hab), if_pos hab] at h1
          simp at h1

lemma teamCompare_trans (a b c : TeamLeaderboardEntry) (h1 : teamCompare a b = true)
    (h2 : teamCompare b c = true) : teamCompare a c = true := by
  simp only [teamCompare, decide_eq_true_eq] at *
  rcases h1 with h1 | ⟨h1e, h1n⟩ <;> rcases h2 with h2 | ⟨h2e, h2n⟩
  · exact Or.inl (lt_trans h2 h1)
  · exact Or.inl (by omega)
  · exact Or.inl (by omega)
  · exact Or.inr ⟨by omega, lexLe_trans _ _ _ h1n h2n⟩

lemma teamCompare_total (a b : TeamLeaderboardEntry) :
    (teamCompare a b || teamCompare b a) = true := by
  simp only [teamCompare, Bool.or_eq_true, decide_eq_true_eq]
  rcases lt_trichotomy a.totalPoints b.totalPoints with h | h | h
  · exact Or.inr (Or.inl h)
  · rcases Bool.or_eq_true _ _ |>.mp (lexLe_total a.teamName.data b.teamName.data) with hn | hn
    · exact Or.inl (Or.inr ⟨h, hn⟩)
    · exact Or.inr (Or.inr ⟨h.symm, hn⟩)
  · exact Or.inl (Or.inl h)

lemma assignTeamPositions_map_position (i : Nat) (l : List TeamLeaderboardEntry) :
    (assignTeamPositions i l).map (·.position) = List.range' (i + 1) l.length := by
  induction l generalizing i with
  | nil => rfl
  | cons e es ih => simp [assignTeamPositions, List.range'_succ, ih]

lemma assignTeamPositions_map_teamId (i : Nat) (l : List TeamLeaderboardEntry) :
    (assignTeamPositions i l).map (·.teamId) = l.map (·.teamId) := by
  induction l generalizing i with
  | nil => rfl
  | cons e es ih => simp [assignTeamPositions, ih]

lemma mem_assignTeamPositions {x : TeamLeaderboardEntry} :
    ∀ {i : Nat} {l : List TeamLeaderboardEntry}, x ∈ assignTeamPositions i l →
      ∃ y ∈ l, ∃ p, x = { y with position := p } := by
  intro i l
  induction l generalizing i with
  | nil => intro hx; simp [assignTeamPositions] at hx
  | cons e es ih =>
    intro hx
    simp only [assignTeamPositions, List.mem_cons] at hx
    rcases hx with hx | hx
    · exact ⟨e, List.mem_cons_self e es, i + 1, hx⟩
    · obtain ⟨y, hy, p, rfl⟩ := ih hx
      exact ⟨y, List.mem_cons_of_mem e hy, p, rfl⟩

lemma pairwise_assignTeamPositions {R : TeamLeaderboardEntry → TeamLeaderboardEntry → Prop}
    (hR : ∀ a b p q, R a b → R { a with position := p } { b with position := q }) :
    ∀ (i : Nat) (l : List TeamLeaderboardEntry),
      l.Pairwise R → (assignTeamPositions i l).Pairwise R := by
  intro i l h
  induction h generalizing i with
  | nil => exact List.Pairwise.nil
  | @cons a l ha _ ih =>
    refine List.Pairwise.cons ?_ (ih (i + 1))
    intro x hx
    obtain ⟨y, hy, p, rfl⟩ := mem_assignTeamPositions hx
    exact hR a y (i + 1) p (ha y hy)

/-- C8 (amended): for every active sum-match sidegame with a loadable active
tournament, the team leaderboard has one entry per sidegame roster team,
sorted by total points descending with ties broken by team name ascending,
and positions densely assigned 1..n; for an all-vs-all sidegame,
`generateTeamLeaderboard` instead returns the empty list. -/
theorem teamLeaderboard_sorted_dense :
    (∀ (teams : List Team) (sg : TeamSidegame) (t : Tournament),
      sg.gameType = GameType.sumMatch →
      ((generateTeamLeaderboard teams sg (some t)).map (·.teamId)).Perm
          (sg.teams.map (·.id))
      ∧ (generateTeamLeaderboard teams sg (some t)).Pairwise (fun a b =>
          b.totalPoints < a.totalPoints ∨
            (a.totalPoints = b.totalPoints ∧ nameLe a.teamName b.teamName))
      ∧ (generateTeamLeaderboard teams sg (some t)).map (·.position) =
          List.range' 1 sg.teams.length)
    ∧ (∀ (teams : List Team) (sg : TeamSidegame) (at? : Option Tournament),
      sg.gameType = GameType.allVsAll → generateTeamLeaderboard teams sg at? = []) := by
  constructor
  · intro teams sg t hsum
    have hng : ¬ sg.gameType ≠ GameType.sumMatch := fun hc => hc hsum
    refine ⟨?_, ?_, ?_⟩
    · simp only [generateTeamLeaderboard, if_neg hng]
      rw [assignTeamPositions_map_teamId]
      have hperm := (List.mergeSort_perm (sg.teams.map (fun team =>
        ({ teamId := team.id, teamName := team.name, teamColor := team.color,
           totalPoints := ((distinctHoles t.scores t.currentRound).foldl
             (leaderboardHoleStep teams t) (fun _ => 0)) team.id,
           matchesPlayed := (distinctHoles t.scores t.currentRound).length,
           position := 0 } : TeamLeaderboardEntry))) teamCompare).map (·.teamId)
      refine hperm.trans ?_
      rw [List.map_map]
      exact List.Perm.refl _
    · simp only [generateTeamLeaderboard, if_neg hng]
      apply pairwise_assignTeamPositions (fun a b p q hab => hab)
      exact (List.sorted_mergeSort teamCompare_trans teamCompare_total
        _).imp (fun h => by simpa [teamCompare, decide_eq_true_eq] using h)
    · simp only [generateTeamLeaderboard, if_neg hng]
      rw [assignTeamPositions_map_position]
      congr 1
      rw [(List.mergeSort_perm _ teamCompare).length_eq, List.length_map]
  · intro teams sg at? hava
    simp [generateTeamLeaderboard, hava]

/-- Counterexample to C8 as stated: for an all-vs-all sidegame with a
three-team roster, `generateTeamLeaderboard` returns no entries at all. -/
theorem teamLeaderboard_allVsAll_counterexample :
    generateTeamLeaderboard cTeams cAvaSidegame (some cT) = []
    ∧ cAvaSidegame.teams.length = 3 := by
  constructor
  · rfl
  · rfl

/-- Witness for C8, applying the theorem to the concrete sum-match sidegame
`cSidegame` (and its all-vs-all sibling). -/
theorem teamLeaderboard_sorted_dense_witness :
    (((generateTeamLeaderboard cTeams cSidegame (some cT)).map (·.teamId)).Perm
        (cSidegame.teams.map (·.id))
      ∧ (generateTeamLeaderboard cTeams cSidegame (some cT)).Pairwise (fun a b =>
          b.totalPoints < a.totalPoints ∨
            (a.totalPoints = b.totalPoints ∧ nameLe a.teamName b.teamName))
      ∧ (generateTeamLeaderboard cTeams cSidegame (some cT)).map (·.position) =
          List.range' 1 cSidegame.teams.length)
    ∧ generateTeamLeaderboard cTeams cAvaSidegame (some cT) = [] :=
  ⟨teamLeaderboard_sorted_dense.1 cTeams cSidegame cT (by rfl),
   teamLeaderboard_sorted_dense.2 cTeams cAvaSidegame (some cT) (by rfl)⟩

end ScoreChat
